import Mathlib

/-!
Verification of the OS-tips core (src/app.py): the medal scoring function,
the scoreboard aggregation, the durable results/picks stores, and the
atomic-write primitive, shallowly embedded as Lean definitions.
-/

namespace OsTips

/-- `PLAYERS` from app.py: the fixed six-player roster. -/
def PLAYERS : List String := ["Johan", "Göran", "Jesper", "Peter", "Magnus", "Tony"]

/-- `MEDALS` from app.py: the closed medal enum, represented as strings. -/
def MEDALS : List String := ["None", "Bronze", "Silver", "Gold"]

/-- Python `d.get(k, default)` on a dict built from a sequence of key/value
pairs (later assignments win, as in `dict(zip(..))` and JSON object parsing). -/
def dict_get {α : Type} (l : List (String × α)) (k : String) (d : α) : α :=
  match l.reverse.lookup k with
  | some v => v
  | none => d

/-- `score_pick` from app.py. -/
def score_pick (pick actual : String) : Nat :=
  if actual = "None" then 0
  else if pick = actual then 5
  else if pick ≠ "None" ∧ actual ≠ "None" then 2
  else 0

/-- One scoreboard row: `{"Tippare": p, "Poäng": total, "Exakta (5p)": exact,
"Rätt medaljör (2p)": right_person}` in app.py. -/
structure Row where
  player : String
  total : Nat
  exact : Nat
  right_person : Nat
deriving DecidableEq

/-- The comparison used by `sort_values(["Poäng", "Exakta (5p)"], ascending=False)`:
descending by total points, ties descending by exact count. -/
def row_le (a b : Row) : Bool :=
  decide (b.total < a.total ∨ (a.total = b.total ∧ b.exact ≤ a.exact))

/-- In-memory picks structure: player → athlete id → medal string. -/
abbrev Picks := List (String × List (String × String))

/-- The loop body of `build_scoreboard`: accumulate points and classify one
athlete for one player (`total`, `exact`, `right_person`). -/
def score_step (results_map user_picks : List (String × String))
    (acc : Nat × Nat × Nat) (aid : String) : Nat × Nat × Nat :=
  let pick := dict_get user_picks aid "None"
  let actual := dict_get results_map aid "None"
  let total := acc.1 + score_pick pick actual
  let exact := if actual ≠ "None" ∧ pick = actual then acc.2.1 + 1 else acc.2.1
  let rp := if ¬ (actual ≠ "None" ∧ pick = actual) ∧ (actual ≠ "None" ∧ pick ≠ "None")
            then acc.2.2 + 1 else acc.2.2
  (total, exact, rp)

/-- The per-player aggregation in `build_scoreboard`: fold the scoring loop
over all registry athlete ids. -/
def player_row (registry : List String) (results_map : List (String × String))
    (picks_all : Picks) (p : String) : Row :=
  let user_picks := dict_get picks_all p []
  let acc := registry.foldl (score_step results_map user_picks) (0, 0, 0)
  ⟨p, acc.1, acc.2.1, acc.2.2⟩

/-- `build_scoreboard` from app.py: one row per fixed roster player, sorted by
the stable descending lexicographic sort on (total, exact). -/
def build_scoreboard (registry : List String) (results : List (String × String))
    (picks_all : Picks) : List Row :=
  (PLAYERS.map (player_row registry results picks_all)).mergeSort row_le

/-- Parsed model of the persisted `results.csv`: whether the required
`athlete_id`/`medal` columns are present, and the data rows. -/
structure ResultsFile where
  hasRequiredCols : Bool
  rows : List (String × String)
deriving DecidableEq

/-- The writable state directory: `results.csv` (`none` = file absent) and
`picks.json` (`none` = absent, `some none` = present but unparseable,
`some (some p)` = parses to `p`). -/
structure FsState where
  resultsFile : Option ResultsFile
  picksFile : Option (Option Picks)
deriving DecidableEq

/-- Medal coercion on load: `df.loc[~df["medal"].isin(MEDALS), "medal"] = "None"`. -/
def coerce_medal (m : String) : String :=
  if m ∈ MEDALS then m else "None"

/-- The all-`"None"` results seed written when `results.csv` does not exist. -/
def seed_results (registry : List String) : List (String × String) :=
  registry.map (fun aid => (aid, "None"))

/-- Reading, validating and self-healing an existing results file against the
registry (`load_results` after the seeding step): fatal `st.stop` when the
required columns are missing, else medal coercion followed by the pandas left
merge on `athlete_id` with `fillna("None")`. -/
def read_results_file (registry : List String) (f : ResultsFile) :
    Except Unit (List (String × String)) :=
  if f.hasRequiredCols then
    let rows := f.rows.map (fun r => (r.1, coerce_medal r.2))
    Except.ok (registry.flatMap (fun aid =>
      let hits := rows.filter (fun r => r.1 == aid)
      if hits.isEmpty then [(aid, "None")] else hits))
  else Except.error ()

/-- `load_results` from app.py: when `results.csv` is absent, write the
all-`"None"` seed and read it back; otherwise read the existing file. Returns
the loaded result (or the fatal error) together with the file-system state. -/
def load_results (registry : List String) (fs : FsState) :
    Except Unit (List (String × String)) × FsState :=
  match fs.resultsFile with
  | none =>
      let f : ResultsFile := ⟨true, seed_results registry⟩
      (read_results_file registry f, { fs with resultsFile := some f })
  | some f => (read_results_file registry f, fs)

/-- `save_results` from app.py: full overwrite of the persisted mapping
(written through `atomic_write_text`, columns always present). -/
def save_results (results : List (String × String)) (fs : FsState) : FsState :=
  { fs with resultsFile := some ⟨true, results⟩ }

/-- `load_picks` from app.py: `{}` when `picks.json` is missing or fails to
parse, otherwise the parsed JSON verbatim. -/
def load_picks (fs : FsState) : Picks :=
  match fs.picksFile with
  | some (some p) => p
  | _ => []

/-- `save_picks` from app.py: full overwrite through `atomic_write_text`;
the JSON dump of the structure parses back to the same structure. -/
def save_picks (p : Picks) (fs : FsState) : FsState :=
  { fs with picksFile := some (some p) }

/-- The picks upload handler of the Backup/Restore tab: `none` models a
payload whose bytes do not decode/parse as JSON (the `except` branch reports
the error). Returns whether success was reported, and the new state. -/
def restore_picks (payload : Option Picks) (fs : FsState) : Bool × FsState :=
  match payload with
  | none => (false, fs)
  | some p => (true, save_picks p fs)

/-- The results upload handler of the Backup/Restore tab: `none` models a
payload `pd.read_csv` cannot read; a readable one is column-checked,
medal-coerced, and saved wholesale. -/
def restore_results (payload : Option ResultsFile) (fs : FsState) : Bool × FsState :=
  match payload with
  | none => (false, fs)
  | some f =>
      if f.hasRequiredCols then
        (true, save_results (f.rows.map (fun r => (r.1, coerce_medal r.2))) fs)
      else (false, fs)

/-- One on-disk file slot: the target path's content and the adjacent
`.tmp` path's content (`none` = absent). -/
structure FileState where
  target : Option String
  tmp : Option String
deriving DecidableEq

/-- `atomic_write_text` from app.py: write the full text to the adjacent
temp path, then rename the temp file over the target. -/
def atomic_write_text (f : FileState) (text : String) : FileState :=
  let f1 : FileState := { f with tmp := some text }
  { target := f1.tmp, tmp := none }

/-- `save_results` at the file level: it routes the serialized CSV through
`atomic_write_text`. -/
def save_results_write (file : FileState) (csv : String) : FileState :=
  atomic_write_text file csv

/-- `save_picks` at the file level: it routes the serialized JSON through
`atomic_write_text`. -/
def save_picks_write (file : FileState) (json : String) : FileState :=
  atomic_write_text file json

/-- The states observable while `atomic_write_text f text` runs, including a
crash at any point: before anything happened, after part of the text reached
the temp file (any prefix), and after the rename. -/
inductive AwObs (f : FileState) (text : String) : FileState → Prop
  | start : AwObs f text f
  | midTmp (t : String) (ht : t.isPrefixOf text) : AwObs f text { f with tmp := some t }
  | renamed : AwObs f text (atomic_write_text f text)

/-- The specification's total: the sum of `score(pick, actual)` over every
registry athlete id, with picks and outcomes defaulting to `"None"`. -/
def spec_total (registry : List String) (results_map user_picks : List (String × String)) : Nat :=
  (registry.map (fun aid =>
    score_pick (dict_get user_picks aid "None") (dict_get results_map aid "None"))).sum

/-- The specification's exact count: athletes with `actual ≠ None` and
`pick = actual`. -/
def spec_exact (registry : List String) (results_map user_picks : List (String × String)) : Nat :=
  registry.countP (fun aid =>
    decide (dict_get results_map aid "None" ≠ "None" ∧
      dict_get user_picks aid "None" = dict_get results_map aid "None"))

/-- The specification's partial count: athletes with `actual ≠ None`,
`pick ≠ None`, and `pick ≠ actual`. -/
def spec_right_person (registry : List String)
    (results_map user_picks : List (String × String)) : Nat :=
  registry.countP (fun aid =>
    decide (dict_get results_map aid "None" ≠ "None" ∧
      dict_get user_picks aid "None" ≠ "None" ∧
      dict_get user_picks aid "None" ≠ dict_get results_map aid "None"))

/-- C1: over the medal enum, `score_pick` lands in exactly the four specified
branches: 0 whenever the actual outcome is `"None"` (this check dominates);
else 5 on an exact match; else 2 for any non-`"None"` pick; else 0. -/
theorem C1_score_branches (pick actual : String)
    (hp : pick ∈ MEDALS) (ha : actual ∈ MEDALS) :
    (actual = "None" → score_pick pick actual = 0) ∧
    (actual ≠ "None" → pick = actual → score_pick pick actual = 5) ∧
    (actual ≠ "None" → pick ≠ actual → pick ≠ "None" → score_pick pick actual = 2) ∧
    (actual ≠ "None" → pick ≠ actual → pick = "None" → score_pick pick actual = 0) := by
  simp only [MEDALS, List.mem_cons, List.mem_singleton, List.not_mem_nil, or_false] at hp ha
  rcases hp with rfl | rfl | rfl | rfl <;> rcases ha with rfl | rfl | rfl | rfl <;>
    refine ⟨?_, ?_, ?_, ?_⟩ <;> decide

/-- Witness for C1 at the concrete pair (Gold, Silver). -/
theorem C1_score_branches_witness :
    ("Silver" = "None" → score_pick "Gold" "Silver" = 0) ∧
    ("Silver" ≠ "None" → "Gold" = "Silver" → score_pick "Gold" "Silver" = 5) ∧
    ("Silver" ≠ "None" → "Gold" ≠ "Silver" → "Gold" ≠ "None" →
      score_pick "Gold" "Silver" = 2) ∧
    ("Silver" ≠ "None" → "Gold" ≠ "Silver" → "Gold" = "None" →
      score_pick "Gold" "Silver" = 0) :=
  C1_score_branches "Gold" "Silver" (by decide) (by decide)

/-- The scoring fold computes exactly the specification's sum and the two
specification counts, on top of any starting accumulator. -/
theorem score_foldl (results_map user_picks : List (String × String)) :
    ∀ (l : List String) (t e r : Nat),
      l.foldl (score_step results_map user_picks) (t, e, r)
        = (t + spec_total l results_map user_picks,
           e + spec_exact l results_map user_picks,
           r + spec_right_person l results_map user_picks)
  | [], t, e, r => by
      simp [spec_total, spec_exact, spec_right_person]
  | aid :: l, t, e, r => by
      have ih := score_foldl results_map user_picks l
      simp only [List.foldl_cons, score_step]
      set pick := dict_get user_picks aid "None" with hpick
      set actual := dict_get results_map aid "None" with hactual
      rw [ih]
      have hT : spec_total (aid :: l) results_map user_picks
          = score_pick pick actual + spec_total l results_map user_picks := by
        simp only [spec_total, List.map_cons, List.sum_cons, ← hpick, ← hactual]
      have hX : spec_exact (aid :: l) results_map user_picks
          = spec_exact l results_map user_picks
            + (if actual ≠ "None" ∧ pick = actual then 1 else 0) := by
        simp only [spec_exact, List.countP_cons, ← hpick, ← hactual]
        by_cases h : actual ≠ "None" ∧ pick = actual <;> simp [h]
      have hR : spec_right_person (aid :: l) results_map user_picks
          = spec_right_person l results_map user_picks
            + (if actual ≠ "None" ∧ pick ≠ "None" ∧ pick ≠ actual then 1 else 0) := by
        simp only [spec_right_person, List.countP_cons, ← hpick, ← hactual]
        by_cases h : actual ≠ "None" ∧ pick ≠ "None" ∧ pick ≠ actual <;> simp [h]
      rw [hT, hX, hR]
      have hcond : (¬ (actual ≠ "None" ∧ pick = actual) ∧ (actual ≠ "None" ∧ pick ≠ "None"))
          ↔ (actual ≠ "None" ∧ pick ≠ "None" ∧ pick ≠ actual) := by tauto
      simp only [Prod.mk.injEq]
      refine ⟨by omega, ?_, ?_⟩
      · by_cases h : actual ≠ "None" ∧ pick = actual <;> simp [h] <;> omega
      · rw [if_congr hcond rfl rfl]
        by_cases h : actual ≠ "None" ∧ pick ≠ "None" ∧ pick ≠ actual <;> simp [h] <;> omega

/-- The per-player row of `build_scoreboard` equals the specification's
sum and counts for that player. -/
theorem player_row_spec (registry : List String) (results_map : List (String × String))
    (picks_all : Picks) (p : String) :
    player_row registry results_map picks_all p
      = ⟨p, spec_total registry results_map (dict_get picks_all p []),
           spec_exact registry results_map (dict_get picks_all p []),
           spec_right_person registry results_map (dict_get picks_all p [])⟩ := by
  simp only [player_row, score_foldl, Nat.zero_add]

/-- C2: for every registry, result mapping and picks structure, each fixed
player's scoreboard row carries the specification's sum of scores, exact
count and partial count; concretely (with the spec's placeholder player P1
read as the roster player "Johan"): registry={A1}, result={A1: Gold},
picks={Johan:{A1: Silver}} gives Johan total=2, exact=0, partial=1, and
picks={Johan:{A1: Gold}} gives total=5, exact=1, partial=0, with every
other player at 0/0/0. -/
theorem C2_scoreboard_aggregation (registry : List String)
    (results : List (String × String)) (picks_all : Picks) (p : String)
    (hp : p ∈ PLAYERS) :
    (⟨p, spec_total registry results (dict_get picks_all p []),
        spec_exact registry results (dict_get picks_all p []),
        spec_right_person registry results (dict_get picks_all p [])⟩ : Row)
      ∈ build_scoreboard registry results picks_all ∧
    (⟨"Johan", 2, 0, 1⟩ : Row)
      ∈ build_scoreboard ["A1"] [("A1", "Gold")] [("Johan", [("A1", "Silver")])] ∧
    (∀ r ∈ build_scoreboard ["A1"] [("A1", "Gold")] [("Johan", [("A1", "Silver")])],
      r.player ≠ "Johan" → r.total = 0 ∧ r.exact = 0 ∧ r.right_person = 0) ∧
    (⟨"Johan", 5, 1, 0⟩ : Row)
      ∈ build_scoreboard ["A1"] [("A1", "Gold")] [("Johan", [("A1", "Gold")])] ∧
    (∀ r ∈ build_scoreboard ["A1"] [("A1", "Gold")] [("Johan", [("A1", "Gold")])],
      r.player ≠ "Johan" → r.total = 0 ∧ r.exact = 0 ∧ r.right_person = 0) := by
  refine ⟨?_, ?_, ?_, ?_, ?_⟩
  · have h := List.mem_map_of_mem (player_row registry results picks_all) hp
    rw [player_row_spec] at h
    exact List.mem_mergeSort.mpr h
  · simp only [build_scoreboard, List.mem_mergeSort]
    decide
  · simp only [build_scoreboard, List.mem_mergeSort]
    decide
  · simp only [build_scoreboard, List.mem_mergeSort]
    decide
  · simp only [build_scoreboard, List.mem_mergeSort]
    decide

/-- Witness for C2: Johan's row in the first concrete scenario. -/
theorem C2_scoreboard_aggregation_witness :
    (⟨"Johan", 2, 0, 1⟩ : Row)
      ∈ build_scoreboard ["A1"] [("A1", "Gold")] [("Johan", [("A1", "Silver")])] :=
  (C2_scoreboard_aggregation ["A1"] [("A1", "Gold")] [("Johan", [("A1", "Silver")])]
    "Johan" (by decide)).2.1

/-- C5: the two stores fail asymmetrically. A persisted results file with the
required columns missing makes `load_results` fail fatally with no partial
result, while a missing or unparseable picks file makes `load_picks` return
the empty structure, never an error. -/
theorem C5_asymmetric_failure (registry : List String) (fs : FsState) (f : ResultsFile) :
    (fs.resultsFile = some f → f.hasRequiredCols = false →
      (load_results registry fs).1 = Except.error ()) ∧
    (fs.picksFile = none → load_picks fs = []) ∧
    (fs.picksFile = some none → load_picks fs = []) := by
  refine ⟨?_, ?_, ?_⟩
  · intro hf hc
    simp [load_results, hf, read_results_file, hc]
  · intro hpk
    simp [load_picks, hpk]
  · intro hpk
    simp [load_picks, hpk]

/-- Witness for C5: a malformed results file aborts; a missing picks file
loads as empty. -/
theorem C5_asymmetric_failure_witness :
    (load_results [] ⟨some ⟨false, []⟩, none⟩).1 = Except.error () ∧
    load_picks ⟨some ⟨false, []⟩, none⟩ = [] :=
  ⟨(C5_asymmetric_failure [] ⟨some ⟨false, []⟩, none⟩ ⟨false, []⟩).1 rfl rfl,
   (C5_asymmetric_failure [] ⟨some ⟨false, []⟩, none⟩ ⟨false, []⟩).2.1 rfl⟩

/-- C7: every state observable while `atomic_write_text` runs (including a
crash at any point) shows the target either fully prior or fully new; any
crash before the rename leaves the prior target byte-identical; the completed
write promotes exactly the full text; and both stores' saves route through
this one primitive. -/
theorem C7_atomic_write_crash_safety (f : FileState) (text : String) (s : FileState)
    (h : AwObs f text s) :
    (s.target = f.target ∨ s.target = some text) ∧
    (s ≠ atomic_write_text f text → s.target = f.target) ∧
    (atomic_write_text f text).target = some text ∧
    (atomic_write_text f text).tmp = none ∧
    save_results_write f text = atomic_write_text f text ∧
    save_picks_write f text = atomic_write_text f text := by
  refine ⟨?_, ?_, rfl, rfl, rfl, rfl⟩
  · cases h with
    | start => exact Or.inl rfl
    | midTmp t ht => exact Or.inl rfl
    | renamed => exact Or.inr rfl
  · intro hne
    cases h with
    | start => rfl
    | midTmp t ht => rfl
    | renamed => exact absurd rfl hne

/-- Witness for C7: completing the write over a prior version promotes the
new text. -/
theorem C7_atomic_write_crash_safety_witness :
    (atomic_write_text ⟨some "old", none⟩ "new").target = some "new" :=
  (C7_atomic_write_crash_safety ⟨some "old", none⟩ "new" _ AwObs.renamed).2.2.1

/-- `coerce_medal` always lands inside the closed enum. -/
theorem coerce_medal_mem (m : String) : coerce_medal m ∈ MEDALS := by
  unfold coerce_medal
  split
  · assumption
  · decide

/-- `coerce_medal` is idempotent. -/
theorem coerce_medal_idem (m : String) : coerce_medal (coerce_medal m) = coerce_medal m := by
  by_cases h : m ∈ MEDALS <;> simp [coerce_medal, h]

/-- Coercing an already coerced results file is a no-op, so loading it gives
the same outcome as loading the raw file. -/
theorem read_results_file_coerced (registry : List String) (f : ResultsFile)
    (hc : f.hasRequiredCols = true) :
    read_results_file registry ⟨true, f.rows.map (fun r => (r.1, coerce_medal r.2))⟩
      = read_results_file registry f := by
  have h2 : (f.rows.map (fun r => (r.1, coerce_medal r.2))).map
        (fun r => (r.1, coerce_medal r.2))
      = f.rows.map (fun r => (r.1, coerce_medal r.2)) := by
    rw [List.map_map]
    apply List.map_congr_left
    intro r _
    simp [Function.comp, coerce_medal_idem]
  unfold read_results_file
  rw [hc]
  simp only [h2]

/-- C9: each store's import applies exactly a normal load's validation and
coercion and replaces that store wholesale on success; every malformed
payload is reported as a failure and leaves both stores untouched. -/
theorem C9_restore_validation (fs : FsState) (registry : List String)
    (p : Picks) (f : ResultsFile) :
    restore_picks none fs = (false, fs) ∧
    restore_results none fs = (false, fs) ∧
    (f.hasRequiredCols = false → restore_results (some f) fs = (false, fs)) ∧
    (restore_picks (some p) fs).1 = true ∧
    (restore_picks (some p) fs).2.picksFile = some (some p) ∧
    (restore_picks (some p) fs).2.resultsFile = fs.resultsFile ∧
    load_picks (restore_picks (some p) fs).2 = p ∧
    (f.hasRequiredCols = true →
      (restore_results (some f) fs).1 = true ∧
      (restore_results (some f) fs).2.resultsFile
        = some ⟨true, f.rows.map (fun r => (r.1, coerce_medal r.2))⟩ ∧
      (restore_results (some f) fs).2.picksFile = fs.picksFile ∧
      (load_results registry (restore_results (some f) fs).2).1
        = read_results_file registry f) := by
  refine ⟨rfl, rfl, ?_, ?_, rfl, rfl, rfl, ?_⟩
  · intro hc
    simp [restore_results, hc]
  · rfl
  · intro hc
    refine ⟨?_, ?_, ?_, ?_⟩
    · simp [restore_results, hc]
    · simp [restore_results, save_results, hc]
    · simp [restore_results, save_results, hc]
    · simp only [restore_results, hc, if_pos, save_results, load_results]
      exact read_results_file_coerced registry f hc

/-- Witness for C9: a column-less results payload is rejected with the store
untouched; a well-formed one loads back exactly as a normal load of the
payload. -/
theorem C9_restore_validation_witness :
    restore_results (some ⟨false, []⟩) ⟨none, none⟩ = (false, ⟨none, none⟩) ∧
    (load_results ["A1"]
        (restore_results (some ⟨true, [("A1", "Gold")]⟩) ⟨none, none⟩).2).1
      = read_results_file ["A1"] ⟨true, [("A1", "Gold")]⟩ :=
  ⟨(C9_restore_validation ⟨none, none⟩ ["A1"] [] ⟨false, []⟩).2.2.1 rfl,
   ((C9_restore_validation ⟨none, none⟩ ["A1"] [] ⟨true, [("A1", "Gold")]⟩).2.2.2.2.2.2.2
      rfl).2.2.2⟩

/-- A lookup hit is an entry of the association list. -/
theorem mem_of_lookup_eq_some {l : List (String × String)} {k b : String}
    (h : l.lookup k = some b) : (k, b) ∈ l := by
  obtain ⟨l₁, l₂, rfl, -⟩ := List.lookup_eq_some_iff.mp h
  exact List.mem_append_right l₁ (List.mem_cons_self _ _)

/-- With duplicate-free stored ids, filtering the coerced rows for one id
yields exactly the (coerced) looked-up entry, or nothing. -/
theorem filter_key_of_nodup (rows : List (String × String)) (aid : String)
    (h : (rows.map Prod.fst).Nodup) :
    (rows.map (fun r => (r.1, coerce_medal r.2))).filter (fun r => r.1 == aid)
      = ((rows.lookup aid).map (fun m => (aid, coerce_medal m))).toList := by
  induction rows with
  | nil => rfl
  | cons x rest ih =>
      obtain ⟨k, w⟩ := x
      rw [List.map_cons, List.nodup_cons] at h
      by_cases hk : k = aid
      · subst hk
        have hrest : (rest.map (fun r => (r.1, coerce_medal r.2))).filter
            (fun r => r.1 == k) = [] := by
          rw [List.filter_eq_nil_iff]
          intro r hr
          obtain ⟨y, hy, rfl⟩ := List.mem_map.mp hr
          have hmm : y.1 ∈ rest.map Prod.fst := List.mem_map_of_mem Prod.fst hy
          have : y.1 ≠ k := fun hc => h.1 (hc ▸ hmm)
          simpa using this
        simp [List.filter_cons, hrest, List.lookup_cons]
      · have hb : (k == aid) = false := beq_eq_false_iff_ne.mpr hk
        have hb' : (aid == k) = false := beq_eq_false_iff_ne.mpr (Ne.symm hk)
        simp only [List.map_cons, List.filter_cons, hb, List.lookup_cons, hb']
        exact ih h.2

/-- A flatMap whose blocks are all singletons is a map. -/
theorem flatMap_singleton_eq_map {α β : Type} (l : List α) (g : α → List β) (f : α → β)
    (h : ∀ a ∈ l, g a = [f a]) : l.flatMap g = l.map f := by
  induction l with
  | nil => rfl
  | cons a l ih =>
      rw [List.flatMap_cons, List.map_cons, h a (List.mem_cons_self a l),
        ih (fun b hb => h b (List.mem_cons_of_mem a hb))]
      rfl

/-- Loading a well-formed results file with duplicate-free ids yields, in
registry order, each registry id paired with its coerced stored medal, or
`"None"` when the id is not stored. -/
theorem read_results_file_of_nodup (registry : List String) (f : ResultsFile)
    (hc : f.hasRequiredCols = true) (h : (f.rows.map Prod.fst).Nodup) :
    read_results_file registry f = Except.ok (registry.map (fun aid =>
      (aid, ((f.rows.lookup aid).map coerce_medal).getD "None"))) := by
  unfold read_results_file
  rw [hc, if_pos rfl]
  dsimp only
  congr 1
  apply flatMap_singleton_eq_map
  intro aid _
  rw [filter_key_of_nodup f.rows aid h]
  cases hl : f.rows.lookup aid
  · simp
  · simp

/-- Looking up a registry member in the all-"None" seed gives "None". -/
theorem lookup_seed (l : List String) (aid : String) (h : aid ∈ l) :
    (seed_results l).lookup aid = some "None" := by
  induction l with
  | nil => cases h
  | cons a l ih =>
      simp only [seed_results, List.map_cons, List.lookup_cons]
      by_cases ha : aid = a
      · simp [ha]
      · have hb : (aid == a) = false := beq_eq_false_iff_ne.mpr ha
        rw [hb]
        exact ih (List.mem_of_ne_of_mem ha h)

/-- The results file written by the C3 counterexample: the required columns
are present and athlete "A1" appears twice. -/
def dupResultsFs : FsState := ⟨some ⟨true, [("A1", "Gold"), ("A1", "Silver")]⟩, none⟩

/-- C3 counterexample: loading registry ["A1"] against a persisted results
store that repeats id "A1" returns two entries for "A1", not exactly one
entry per registry athlete id. -/
theorem C3_counterexample :
    (load_results ["A1"] dupResultsFs).1
      = Except.ok [("A1", "Gold"), ("A1", "Silver")] ∧
    ([("A1", "Gold"), ("A1", "Silver")] : List (String × String)).length ≠ 1 := by
  exact ⟨rfl, by decide⟩

/-- C3 amended: provided the persisted ids are duplicate-free (the registry
itself being uniquely keyed), every load returns exactly one entry per
current registry athlete id — stored ids outside the registry are dropped,
registry ids missing from storage default to "None" — and an absent store is
seeded all-"None" and persisted before returning. With duplicated stored
ids the pandas left merge instead multiplies the matching rows. -/
theorem C3_amended_one_entry_per_athlete (registry : List String) (fs : FsState) :
    (registry.Nodup → fs.resultsFile = none →
      (load_results registry fs).1 = Except.ok (seed_results registry) ∧
      (load_results registry fs).2.resultsFile = some ⟨true, seed_results registry⟩) ∧
    (∀ f, fs.resultsFile = some f → f.hasRequiredCols = true →
      (f.rows.map Prod.fst).Nodup →
      (load_results registry fs).1 = Except.ok (registry.map (fun aid =>
        (aid, ((f.rows.lookup aid).map coerce_medal).getD "None")))) := by
  constructor
  · intro hreg hnone
    have hn : ((seed_results registry).map Prod.fst).Nodup := by
      simp only [seed_results, List.map_map]
      have hcomp : (Prod.fst ∘ fun aid : String => (aid, "None")) = id := rfl
      rw [hcomp, List.map_id]
      exact hreg
    have hread := read_results_file_of_nodup registry ⟨true, seed_results registry⟩ rfl hn
    have hfix : registry.map (fun aid =>
        (aid, (((seed_results registry).lookup aid).map coerce_medal).getD "None"))
        = seed_results registry := by
      apply List.map_congr_left
      intro aid ha
      rw [lookup_seed registry aid ha]
      rfl
    constructor
    · simp only [load_results, hnone]
      rw [hread, hfix]
    · simp [load_results, hnone]
  · intro f hf hc hn
    simp only [load_results, hf]
    exact read_results_file_of_nodup registry f hc hn

/-- Witness for the amended C3: seeding on first load, and self-healing a
store with an extra id and a missing id. -/
theorem C3_amended_one_entry_per_athlete_witness :
    (load_results ["A1"] ⟨none, none⟩).1 = Except.ok [("A1", "None")] ∧
    (load_results ["A1", "A2"] ⟨some ⟨true, [("A2", "Silver"), ("B9", "Gold")]⟩, none⟩).1
      = Except.ok [("A1", "None"), ("A2", "Silver")] := by
  constructor
  · have h := ((C3_amended_one_entry_per_athlete ["A1"] ⟨none, none⟩).1 (by decide) rfl).1
    rw [h]
    rfl
  · have h := (C3_amended_one_entry_per_athlete ["A1", "A2"]
      ⟨some ⟨true, [("A2", "Silver"), ("B9", "Gold")]⟩, none⟩).2
      ⟨true, [("A2", "Silver"), ("B9", "Gold")]⟩ rfl rfl (by decide)
    rw [h]
    rfl

/-- Any successful results read only contains medals from the closed enum. -/
theorem read_results_file_medals (registry : List String) (f : ResultsFile)
    (out : List (String × String)) (h : read_results_file registry f = Except.ok out) :
    ∀ r ∈ out, r.2 ∈ MEDALS := by
  unfold read_results_file at h
  split at h
  · injection h with h
    subst h
    intro r hr
    rw [List.mem_flatMap] at hr
    obtain ⟨aid, -, hr⟩ := hr
    dsimp only at hr
    split at hr
    · rw [List.mem_singleton] at hr
      subst hr
      show ("None" : String) ∈ MEDALS
      decide
    · have hr' := (List.mem_filter.mp hr).1
      obtain ⟨x, -, rfl⟩ := List.mem_map.mp hr'
      exact coerce_medal_mem x.2
  · cases h

/-- The picks file for the C4 counterexample: it parses, and holds the
out-of-enum medal string "Platinum". -/
def alienPicksFs : FsState := ⟨none, some (some [("Johan", [("A1", "Platinum")])])⟩

/-- C4 counterexample: a pick medal value outside the closed enum survives
`load_picks` verbatim — it is not coerced to "None" and not rejected. -/
theorem C4_counterexample :
    load_picks alienPicksFs = [("Johan", [("A1", "Platinum")])] ∧
    "Platinum" ∉ MEDALS ∧
    dict_get (dict_get (load_picks alienPicksFs) "Johan" []) "A1" "None" = "Platinum" :=
  ⟨rfl, by decide, by decide⟩

/-- C4 amended: after `load_results` every medal value in the loaded state is
in the closed enum (out-of-enum stored values coerce to "None"), but
`load_picks` applies no coercion at all: it returns the parsed structure
unchanged, so out-of-enum pick values survive a picks load. -/
theorem C4_amended_enum_after_load (registry : List String) (fs : FsState) :
    (∀ out, (load_results registry fs).1 = Except.ok out → ∀ r ∈ out, r.2 ∈ MEDALS) ∧
    (∀ p, fs.picksFile = some (some p) → load_picks fs = p) := by
  constructor
  · intro out h
    rcases hfs : fs.resultsFile with - | f
    · simp only [load_results, hfs] at h
      exact read_results_file_medals registry ⟨true, seed_results registry⟩ out h
    · simp only [load_results, hfs] at h
      exact read_results_file_medals registry f out h
  · intro p hp
    simp [load_picks, hp]

/-- Witness for the amended C4: a loaded results store has enum medals only;
the alien picks store reloads verbatim. -/
theorem C4_amended_enum_after_load_witness :
    (∀ r ∈ ([("A1", "Gold")] : List (String × String)), r.2 ∈ MEDALS) ∧
    load_picks alienPicksFs = [("Johan", [("A1", "Platinum")])] :=
  ⟨(C4_amended_enum_after_load ["A1"] ⟨some ⟨true, [("A1", "Gold")]⟩, none⟩).1
      [("A1", "Gold")] rfl,
   (C4_amended_enum_after_load ["A1"] alienPicksFs).2 _ rfl⟩

/-- In a duplicate-free association list, a member's key looks up to its
value. -/
theorem lookup_of_mem_nodup (l : List (String × String)) (a v : String)
    (hn : (l.map Prod.fst).Nodup) (hm : (a, v) ∈ l) : l.lookup a = some v := by
  induction l with
  | nil => cases hm
  | cons x rest ih =>
      obtain ⟨k, w⟩ := x
      rw [List.map_cons, List.nodup_cons] at hn
      rcases List.mem_cons.mp hm with heq | hmem
      · injection heq with h1 h2
        subst h1; subst h2
        simp
      · have hne : a ≠ k := by
          intro hc
          have hmm : a ∈ rest.map Prod.fst := List.mem_map.mpr ⟨(a, v), hmem, rfl⟩
          rw [hc] at hmm
          exact hn.1 hmm
        have hb : (a == k) = false := beq_eq_false_iff_ne.mpr hne
        rw [List.lookup_cons, hb]
        exact ih hn.2 hmem

/-- C8: save-then-load round-trips for both stores: a saved picks structure
reloads exactly; a results state with one enum-valued entry per registry
athlete reloads, after save, as a permutation of itself (registry order). -/
theorem C8_save_load_round_trip (registry : List String) (fs : FsState)
    (X : List (String × String)) (P : Picks)
    (hkeys : (X.map Prod.fst).Perm registry) (hnodup : (X.map Prod.fst).Nodup)
    (hmed : ∀ r ∈ X, r.2 ∈ MEDALS) :
    load_picks (save_picks P fs) = P ∧
    (load_results registry (save_results X fs)).1
      = Except.ok (registry.map (fun aid => (aid, (X.lookup aid).getD "None"))) ∧
    (registry.map (fun aid => (aid, (X.lookup aid).getD "None"))).Perm X := by
  have hfix : ∀ aid, ((X.lookup aid).map coerce_medal).getD "None"
      = (X.lookup aid).getD "None" := by
    intro aid
    cases hl : X.lookup aid
    · rfl
    case some m =>
      have : m ∈ MEDALS := hmed _ (mem_of_lookup_eq_some hl)
      simp [coerce_medal, this]
  refine ⟨rfl, ?_, ?_⟩
  · have h := read_results_file_of_nodup registry ⟨true, X⟩ rfl hnodup
    simp only [load_results, save_results] at h ⊢
    rw [h]
    congr 1
    apply List.map_congr_left
    intro aid _
    rw [hfix]
  · have hmapmap : (X.map Prod.fst).map
        (fun aid => (aid, (X.lookup aid).getD "None")) = X := by
      rw [List.map_map]
      have hself : ∀ r ∈ X,
          ((fun aid => (aid, (X.lookup aid).getD "None")) ∘ Prod.fst) r = id r := by
        intro r hr
        have hl : X.lookup r.1 = some r.2 :=
          lookup_of_mem_nodup X r.1 r.2 hnodup (by simpa using hr)
        simp [Function.comp, hl]
      rw [List.map_congr_left hself, List.map_id]
    have hperm := hkeys.map (fun aid => (aid, (X.lookup aid).getD "None"))
    rw [hmapmap] at hperm
    exact hperm.symm

/-- Witness for C8: a concrete picks structure and a two-athlete results
state round-trip through their stores. -/
theorem C8_save_load_round_trip_witness :
    load_picks (save_picks [("Johan", [("A1", "Gold")])] ⟨none, none⟩)
      = [("Johan", [("A1", "Gold")])] ∧
    (load_results ["A1", "A2"]
        (save_results [("A2", "Gold"), ("A1", "None")] ⟨none, none⟩)).1
      = Except.ok (["A1", "A2"].map (fun aid =>
          (aid, ([("A2", "Gold"), ("A1", "None")].lookup aid).getD "None"))) ∧
    (["A1", "A2"].map (fun aid =>
        (aid, ([("A2", "Gold"), ("A1", "None")].lookup aid).getD "None"))).Perm
      [("A2", "Gold"), ("A1", "None")] :=
  C8_save_load_round_trip ["A1", "A2"] ⟨none, none⟩ [("A2", "Gold"), ("A1", "None")]
    [("Johan", [("A1", "Gold")])] (by decide) (by decide) (by decide)

/-- `row_le` is transitive. -/
theorem row_le_trans (a b c : Row) (hab : row_le a b) (hbc : row_le b c) : row_le a c := by
  simp only [row_le, decide_eq_true_eq] at hab hbc ⊢
  omega

/-- `row_le` is total. -/
theorem row_le_total (a b : Row) : row_le a b || row_le b a := by
  simp only [row_le, Bool.or_eq_true, decide_eq_true_eq]
  omega

/-- Stability of the merge sort: filtering for a class of mutually tied
elements commutes with sorting, so tied elements keep their input order. -/
theorem mergeSort_filter_ties {α : Type} (le : α → α → Bool)
    (htrans : ∀ (a b c : α), le a b → le b c → le a c)
    (htotal : ∀ (a b : α), le a b || le b a)
    (l : List α) (p : α → Bool) (hp : ∀ a b, p a → p b → le a b) :
    (l.mergeSort le).filter p = l.filter p := by
  have hpair : (l.filter p).Pairwise (fun a b => le a b) := by
    apply List.pairwise_of_forall_mem_list
    intro a ha b hb
    exact hp a b (List.of_mem_filter ha) (List.of_mem_filter hb)
  have hsub : List.Sublist (l.filter p) (l.mergeSort le) :=
    List.sublist_mergeSort htrans htotal hpair (List.filter_sublist l)
  have hperm : ((l.mergeSort le).filter p).Perm (l.filter p) :=
    (List.mergeSort_perm l le).filter p
  have hidem : (l.filter p).filter p = l.filter p :=
    List.filter_eq_self.mpr (fun a ha => List.of_mem_filter ha)
  have hsub2 : List.Sublist (l.filter p) ((l.mergeSort le).filter p) := by
    have h := hsub.filter p
    rwa [hidem] at h
  exact (hsub2.eq_of_length hperm.length_eq.symm).symm

/-- C6: the scoreboard is sorted descending by total points, ties broken
descending by exact count (so among players with equal totals the higher
exact count ranks first); it is a permutation of the six per-player rows;
and the sort is stable: rows tied on both fields keep their roster order.
`build_scoreboard` is a pure function of its arguments, so equal inputs give
equal output order. -/
theorem C6_scoreboard_order (registry : List String)
    (results : List (String × String)) (picks_all : Picks) :
    (build_scoreboard registry results picks_all).Pairwise
      (fun a b => b.total < a.total ∨ (a.total = b.total ∧ b.exact ≤ a.exact)) ∧
    (build_scoreboard registry results picks_all).Perm
      (PLAYERS.map (player_row registry results picks_all)) ∧
    (∀ t e, (build_scoreboard registry results picks_all).filter
        (fun r => r.total == t && r.exact == e)
      = (PLAYERS.map (player_row registry results picks_all)).filter
        (fun r => r.total == t && r.exact == e)) := by
  refine ⟨?_, ?_, ?_⟩
  · have h := List.sorted_mergeSort row_le_trans row_le_total
      (PLAYERS.map (player_row registry results picks_all))
    exact h.imp (fun hab => by simpa [row_le, decide_eq_true_eq] using hab)
  · exact List.mergeSort_perm _ _
  · intro t e
    apply mergeSort_filter_ties row_le row_le_trans row_le_total
    intro a b ha hb
    simp only [Bool.and_eq_true, beq_iff_eq] at ha hb
    simp only [row_le, decide_eq_true_eq]
    omega

/-- `dict_get` ignores an appended binding for a different key. -/
theorem dict_get_append_ne {α : Type} (l : List (String × α)) (q p' : String)
    (v d : α) (h : p' ≠ q) :
    dict_get (l ++ [(q, v)]) p' d = dict_get l p' d := by
  have hb : (p' == q) = false := beq_eq_false_iff_ne.mpr h
  simp [dict_get, List.reverse_append, List.lookup_cons, hb]

/-- C10: the scoreboard has exactly the six roster players' rows — one per
roster player and none for anyone else — and a picks entry under a key
outside the roster never changes the scoreboard. -/
theorem C10_fixed_roster (registry : List String)
    (results : List (String × String)) (picks_all : Picks)
    (q : String) (v : List (String × String)) (hq : q ∉ PLAYERS) :
    ((build_scoreboard registry results picks_all).map Row.player).Perm PLAYERS ∧
    build_scoreboard registry results (picks_all ++ [(q, v)])
      = build_scoreboard registry results picks_all := by
  constructor
  · have hperm := (List.mergeSort_perm
        (PLAYERS.map (player_row registry results picks_all)) row_le).map Row.player
    have heq : (PLAYERS.map (player_row registry results picks_all)).map Row.player
        = PLAYERS := by
      rw [List.map_map]
      have hcomp : ∀ p ∈ PLAYERS,
          (Row.player ∘ player_row registry results picks_all) p = id p := fun p _ => rfl
      rw [List.map_congr_left hcomp, List.map_id]
    have h2 : (build_scoreboard registry results picks_all).map Row.player
        = (List.mergeSort (PLAYERS.map (player_row registry results picks_all))
            row_le).map Row.player := rfl
    rw [h2, ← heq]
    exact hperm
  · unfold build_scoreboard
    congr 1
    apply List.map_congr_left
    intro p hp
    have hpq : p ≠ q := fun h => hq (h ▸ hp)
    simp only [player_row]
    rw [dict_get_append_ne picks_all q p v [] hpq]

/-- Witness for C10: a non-roster picks key ("Nisse") leaves the scoreboard
unchanged. -/
theorem C10_fixed_roster_witness :
    build_scoreboard ["A1"] [] ([] ++ [("Nisse", [("A1", "Gold")])])
      = build_scoreboard ["A1"] [] [] :=
  (C10_fixed_roster ["A1"] [] [] "Nisse" [("A1", "Gold")] (by decide)).2

end OsTips
